import Mathlib

/-!
Verification development for the HackMIT course recommendation repository.

The repository has three source files:
* `course_recommender.py` — the three-stage recommendation pipeline
  (`select_departments`, `select_courses_with_prerequisites`,
  `create_learning_roadmap`), the retry wrapper `_call_claude_api`, and the
  per-department corpus loader `_load_department_courses`;
* `Split_initial_Json.py` — the corpus partitioner
  (`split_courses_by_department`, `clean_filename`);
* `Application_Example.py` — demo glue (out of scope).

The external completion service (the Anthropic client) is modelled as an
oracle parameter; the filesystem is modelled as an oracle parameter; Python
strings are modelled as `List Char`; Python's `json` module is modelled by an
executable JSON value type with a fueled parser (`jsonLoads`, standing for
`json.loads`).  The modelled JSON subset: numbers are integers (no floats or
exponents, and leading zeros are rejected as `json.loads` does), strings
support the common one-character escapes (`\" \\ \/ \n \t \r \b \f`, no
`\uXXXX`), raw control characters inside strings are rejected (as `json.loads`
does in its default strict mode), and duplicate object keys are kept as a
literal field list rather than last-one-wins.  The subset is only ever
*smaller* than what `json.loads` accepts, so every parse success in the model
is a parse success in Python.
-/

/-- Python strings are modelled as lists of characters. -/
abbrev Str := List Char

/-- JSON values as handled by Python's `json` module (see the module
comment for the modelled subset). -/
inductive Json where
  | null
  | bool (b : Bool)
  | num (n : Int)
  | str (s : Str)
  | arr (elems : List Json)
  | obj (fields : List (Str × Json))

/-- Whether a JSON value is an object (a Python `dict`). -/
def Json.isObj : Json → Bool
  | .obj _ => true
  | _ => false

/-- Whether the corresponding Python value is unhashable: a membership test
`x in some_dict` raises `TypeError` in Python when `x` is a `list` or a
`dict`. -/
def Json.unhashable : Json → Bool
  | .arr _ => true
  | .obj _ => true
  | _ => false

/-! ### A model of `json.loads` -/

/-- JSON insignificant whitespace. -/
def isJsonWs (c : Char) : Bool := c = ' ' || c = '\t' || c = '\n' || c = '\r'

/-- Drop leading JSON whitespace. -/
def skipWs : Str → Str
  | [] => []
  | c :: cs => if isJsonWs c then skipWs cs else c :: cs

/-- Decode a one-character string escape. -/
def escChar : Char → Option Char
  | 'n' => some '\n'
  | 't' => some '\t'
  | 'r' => some '\r'
  | 'b' => some '\x08'
  | 'f' => some '\x0c'
  | '/' => some '/'
  | '"' => some '"'
  | '\\' => some '\\'
  | _ => none

/-- Parse the body of a JSON string, after the opening quote; returns the
decoded content and the input remaining after the closing quote. -/
def parseStringBody : Str → Option (Str × Str)
  | [] => none
  | '"' :: rest => some ([], rest)
  | '\\' :: e :: rest =>
    match escChar e with
    | some c => (parseStringBody rest).map (fun p => (c :: p.1, p.2))
    | none => none
  | ['\\'] => none
  | c :: rest =>
    if c.toNat < 32 then none
    else (parseStringBody rest).map (fun p => (c :: p.1, p.2))

/-- ASCII digit test. -/
def isDigit (c : Char) : Bool := 48 ≤ c.toNat && c.toNat ≤ 57

/-- Split off the longest leading run of digits. -/
def takeDigits : Str → (Str × Str)
  | [] => ([], [])
  | c :: cs =>
    if isDigit c then
      let p := takeDigits cs
      (c :: p.1, p.2)
    else ([], c :: cs)

/-- Decimal value of a digit string. -/
def digitsToNat (ds : Str) : Nat := ds.foldl (fun acc c => acc * 10 + (c.toNat - 48)) 0

/-- Parse an unsigned JSON integer (rejecting a leading zero in front of
further digits, as `json.loads` does). -/
def parseNumNat (s : Str) : Option (Nat × Str) :=
  match takeDigits s with
  | ([], _) => none
  | (d :: ds, rest) =>
    if d = '0' && ds ≠ [] then none
    else some (digitsToNat (d :: ds), rest)

/-- Parse a JSON integer, possibly negative. -/
def parseNum : Str → Option (Int × Str)
  | '-' :: rest => (parseNumNat rest).map (fun p => (-(p.1 : Int), p.2))
  | s => (parseNumNat s).map (fun p => ((p.1 : Int), p.2))

mutual

/-- Fueled parser for a JSON value; returns the value and the remaining
input. -/
def parseVal : Nat → Str → Option (Json × Str)
  | 0, _ => none
  | fuel + 1, s =>
    match skipWs s with
    | [] => none
    | c :: cs =>
      if c = 'n' then
        match cs with
        | 'u' :: 'l' :: 'l' :: rest => some (Json.null, rest)
        | _ => none
      else if c = 't' then
        match cs with
        | 'r' :: 'u' :: 'e' :: rest => some (Json.bool true, rest)
        | _ => none
      else if c = 'f' then
        match cs with
        | 'a' :: 'l' :: 's' :: 'e' :: rest => some (Json.bool false, rest)
        | _ => none
      else if c = '"' then
        (parseStringBody cs).map (fun p => (Json.str p.1, p.2))
      else if c = '[' then
        match skipWs cs with
        | ']' :: rest => some (Json.arr [], rest)
        | _ => (parseArrLoop fuel cs).map (fun p => (Json.arr p.1, p.2))
      else if c = '{' then
        match skipWs cs with
        | '}' :: rest => some (Json.obj [], rest)
        | _ => (parseObjLoop fuel cs).map (fun p => (Json.obj p.1, p.2))
      else if c = '-' || isDigit c then
        (parseNum (c :: cs)).map (fun p => (Json.num p.1, p.2))
      else none

/-- Fueled parser for the comma-separated elements of a nonempty JSON array,
up to and including the closing bracket. -/
def parseArrLoop : Nat → Str → Option (List Json × Str)
  | 0, _ => none
  | fuel + 1, s =>
    match parseVal fuel s with
    | none => none
    | some (v, rest) =>
      match skipWs rest with
      | ',' :: rest' => (parseArrLoop fuel rest').map (fun p => (v :: p.1, p.2))
      | ']' :: rest' => some ([v], rest')
      | _ => none

/-- Fueled parser for the comma-separated members of a nonempty JSON object,
up to and including the closing brace. -/
def parseObjLoop : Nat → Str → Option (List (Str × Json) × Str)
  | 0, _ => none
  | fuel + 1, s =>
    match skipWs s with
    | '"' :: cs =>
      match parseStringBody cs with
      | none => none
      | some (key, rest) =>
        match skipWs rest with
        | ':' :: rest' =>
          match parseVal fuel rest' with
          | none => none
          | some (v, rest2) =>
            match skipWs rest2 with
            | ',' :: rest3 => (parseObjLoop fuel rest3).map (fun p => ((key, v) :: p.1, p.2))
            | '}' :: rest3 => some ([(key, v)], rest3)
            | _ => none
        | _ => none
    | _ => none

end

/-- Model of `json.loads`: parse one JSON document, allowing surrounding
whitespace, requiring the whole input to be consumed; `none` models a raised
`json.JSONDecodeError`.  The fuel `2 * length + 4` dominates the recursion
depth of any parse of the input. -/
def jsonLoads (s : Str) : Option Json :=
  match parseVal (2 * s.length + 4) s with
  | some (v, rest) => if skipWs rest = [] then some v else none
  | none => none

/-! ### A model of the two extraction regexes

Stage 1 and stage 2 locate JSON with `re.search(r'\[.*?\]', text, re.DOTALL)`:
the match starts at the leftmost `'['` that is followed by some `']'`, and the
lazy `.*?` makes it end at the first `']'` after that start.  Stage 3 uses
`re.search(r'\{.*\}', text, re.DOTALL)`: the match starts at the leftmost
`'{'` that is followed by some `'}'`, and the greedy `.*` makes it end at the
last `'}'` of the whole text. -/

/-- The shortest prefix of the input up to and including the first `']'`. -/
def takeThroughRB : Str → Option Str
  | [] => none
  | c :: cs => if c = ']' then some [c] else (takeThroughRB cs).map (c :: ·)

/-- Model of `re.search(r'\[.*?\]', s, re.DOTALL)`: the matched substring, if
any. -/
def extractArr : Str → Option Str
  | [] => none
  | c :: cs =>
    if c = '[' then
      match takeThroughRB cs with
      | some body => some ('[' :: body)
      | none => extractArr cs
    else extractArr cs

/-- The prefix of the input up to and including the last `'}'`. -/
def takeThroughLastRB : Str → Option Str
  | [] => none
  | c :: cs =>
    match takeThroughLastRB cs with
    | some body => some (c :: body)
    | none => if c = '}' then some [c] else none

/-- Model of `re.search(r'\{.*\}', s, re.DOTALL)`: the matched substring, if
any. -/
def extractObj : Str → Option Str
  | [] => none
  | c :: cs =>
    if c = '{' then
      match takeThroughLastRB cs with
      | some body => some ('{' :: body)
      | none => extractObj cs
    else extractObj cs

/-- The extraction step of stages 1 and 2: regex locate, then `json.loads`. -/
def extractAndParseArr (s : Str) : Option Json := (extractArr s).bind jsonLoads

/-- The extraction step of stage 3: regex locate, then `json.loads`. -/
def extractAndParseObj (s : Str) : Option Json := (extractObj s).bind jsonLoads

/-! ### The department catalog (`CourseRecommendationSystem.__init__`) -/

/-- The dictionary assigned to `self.available_departments` in
`CourseRecommendationSystem.__init__`: department name, mapped to course
count. -/
def available_departments : List (Str × Nat) :=
  [ ("Aeronautics_and_Astronautics".toList, 92),
    ("Anthropology".toList, 67),
    ("Architecture".toList, 116),
    ("Athletics,_Physical_Education_and_Recreation".toList, 10),
    ("Biological_Engineering".toList, 41),
    ("Biology".toList, 85),
    ("Brain_and_Cognitive_Sciences".toList, 99),
    ("Chemical_Engineering".toList, 57),
    ("Chemistry".toList, 43),
    ("Civil_and_Environmental_Engineering".toList, 105),
    ("Comparative_Media_Studies_Writing".toList, 71),
    ("Concourse".toList, 5),
    ("Earth,_Atmospheric,_and_Planetary_Sciences".toList, 111),
    ("Economics".toList, 85),
    ("Edgerton_Center".toList, 28),
    ("Electrical_Engineering_and_Computer_Science".toList, 298),
    ("Engineering_Systems_Division".toList, 66),
    ("Experimental_Study_Group".toList, 30),
    ("Global_Studies_and_Languages".toList, 121),
    ("Health_Sciences_and_Technology".toList, 72),
    ("History".toList, 91),
    ("Institute_for_Data,_Systems,_and_Society".toList, 20),
    ("Linguistics_and_Philosophy".toList, 85),
    ("Literature".toList, 128),
    ("Materials_Science_and_Engineering".toList, 92),
    ("Mathematics".toList, 213),
    ("Mechanical_Engineering".toList, 162),
    ("Media_Arts_and_Sciences".toList, 47),
    ("Music_and_Theater_Arts".toList, 69),
    ("Nuclear_Science_and_Engineering".toList, 53),
    ("Others".toList, 447),
    ("Physics".toList, 117),
    ("Political_Science".toList, 97),
    ("Science,_Technology_and_Society".toList, 70),
    ("Sloan_School_of_Management".toList, 218),
    ("Special_Programs".toList, 2),
    ("Urban_Studies_and_Planning".toList, 211),
    ("Women\x27s_and_Gender_Studies".toList, 61) ]

/-- Python's `name in catalog_dict`: whether `s` is a key of the catalog. -/
def isDeptKey (catalog : List (Str × Nat)) (s : Str) : Bool :=
  catalog.any (fun kv => kv.1 == s)

/-! ### Stage 1: `select_departments`

The prompt built from the student profile is sent to the completion boundary;
the boundary is modelled by its outcome `response : Option Str`
(the value `self._call_claude_api(prompt)` returned).  Prompt construction
itself has no observable effect on the result and is not modelled. -/

/-- The validation step of stage 1 applied to one parsed element:
`dept in self.available_departments` keeps exactly the string elements that
are catalog keys.  (Unhashable elements are handled separately: in Python
they raise `TypeError`.) -/
def deptOfJson (catalog : List (Str × Nat)) : Json → Option Str
  | Json.str s => if isDeptKey catalog s then some s else none
  | _ => none

/-- Model of `CourseRecommendationSystem.select_departments`, as a function
of the completion outcome.  Mirrors the source: falsy response gives `[]`;
no regex match gives `[]`; a `json.loads` failure raises and is caught,
giving `[]`; a parsed array containing an unhashable element (a nested list
or object) makes the membership test raise `TypeError`, caught, giving `[]`;
otherwise the catalog-key elements are kept in order and truncated to the
first 3. -/
def select_departments (catalog : List (Str × Nat)) (response : Option Str) : List Str :=
  match response with
  | none => []
  | some resp =>
    if resp = [] then []
    else
      match extractArr resp with
      | none => []
      | some txt =>
        match jsonLoads txt with
        | some (Json.arr departments) =>
          if departments.any Json.unhashable then []
          else (departments.filterMap (deptOfJson catalog)).take 3
        | _ => []

/-! ### The completion client: `_call_claude_api`

The external service is an oracle `api : Nat → Option Str` giving the
outcome of each attempt (`none` models a raised exception, `some text` a
successful reply).  The model returns the Python return value, the number of
attempts made, and the list of back-off sleep durations
(`time.sleep(2 ** attempt)`), in order. -/

/-- The retry loop of `_call_claude_api`, from attempt number `attempt` with
`remaining` loop iterations left.  One iteration with a failed call either
returns `None` when it was the last one (`attempt == max_retries - 1` in the
source) or sleeps `2 ** attempt` and continues. -/
def callRetryAux (api : Nat → Option Str) : Nat → Nat → Option Str × Nat × List Nat
  | attempt, 0 => (none, attempt, [])
  | attempt, 1 =>
    match api attempt with
    | some text => (some text, attempt + 1, [])
    | none => (none, attempt + 1, [])
  | attempt, remaining + 2 =>
    match api attempt with
    | some text => (some text, attempt + 1, [])
    | none =>
      let r := callRetryAux api (attempt + 1) (remaining + 1)
      (r.1, r.2.1, 2 ^ attempt :: r.2.2)

/-- Model of `CourseRecommendationSystem._call_claude_api`: result, number of
attempts made, and sleep durations between consecutive attempts. -/
def _call_claude_api (api : Nat → Option Str) (max_retries : Nat) :
    Option Str × Nat × List Nat :=
  callRetryAux api 0 max_retries

/-! ### Stage 2: `select_courses_with_prerequisites`

The filesystem of `departments/<name>.json` files is an oracle
`fs : Str → Option (List Json)`: `none` models a missing file or a
`json.load` failure, `some records` the parsed JSON array of course records
the corpus boundary guarantees (§6 of the spec).  The completion boundary is
an oracle `replyF : Str → Option Str` giving the outcome of the one
completion call made for a department. -/

/-- Model of `CourseRecommendationSystem._load_department_courses`: the
course list of a department, `[]` when the file is missing or unreadable
(both exception paths return `[]` in the source). -/
def _load_department_courses (fs : Str → Option (List Json)) (department : Str) :
    List Json :=
  match fs department with
  | some courses => courses
  | none => []

/-- The contribution of a single department to the stage-2 accumulator:
`[]` when the department is skipped (empty/unloadable course group, falsy
response, no regex match, or invalid JSON), otherwise the parsed course
selections. -/
def stage2_department_contribution (fs : Str → Option (List Json))
    (replyF : Str → Option Str) (department : Str) : List Json :=
  match _load_department_courses fs department with
  | [] => []
  | _ :: _ =>
    match replyF department with
    | none => []
    | some resp =>
      if resp = [] then []
      else
        match extractArr resp with
        | none => []
        | some txt =>
          match jsonLoads txt with
          | some (Json.arr courses) => courses
          | _ => []

/-- Model of `CourseRecommendationSystem.select_courses_with_prerequisites`:
the loop over selected departments with the `all_selected_courses`
accumulator, mirroring the source control flow (`continue` on an empty
course group; per-department extraction, with failures caught per
department). -/
def select_courses_with_prerequisites (fs : Str → Option (List Json))
    (replyF : Str → Option Str) (selected_departments : List Str) : List Json :=
  selected_departments.foldl
    (fun all_selected_courses department =>
      match _load_department_courses fs department with
      | [] => all_selected_courses
      | _ :: _ =>
        match replyF department with
        | none => all_selected_courses
        | some resp =>
          if resp = [] then all_selected_courses
          else
            match extractArr resp with
            | none => all_selected_courses
            | some txt =>
              match jsonLoads txt with
              | some (Json.arr courses) => all_selected_courses ++ courses
              | _ => all_selected_courses)
    []

/-! ### Stage 3: `create_learning_roadmap` -/

/-- The `"error"` dictionary key. -/
def errorKey : Str := "error".toList

/-- The error dictionary returned on empty input. -/
def errNoCourses : Json :=
  Json.obj [(errorKey, Json.str "No courses provided for roadmap creation".toList)]

/-- The error dictionary returned when the completion fails or no object is
found in the reply. -/
def errFailedCreate : Json :=
  Json.obj [(errorKey, Json.str "Failed to create roadmap".toList)]

/-- The error dictionary returned from the exception handler when
`json.loads` raises on the matched region.  In the source the message embeds
`str(e)`; the model uses a fixed diagnostic text. -/
def errDecodeFail : Json :=
  Json.obj [(errorKey, Json.str "Roadmap creation failed: invalid JSON in response".toList)]

/-- An exception escaping to the caller (the course-serialization loop of
`create_learning_roadmap` runs outside the `try` block, so these are
uncaught). -/
inductive PyError where
  | attributeError
  | typeError
deriving DecidableEq

/-- Python `dict.get(key, default)` on a parsed JSON object, as an optional
lookup: `json.loads` builds the dict left to right, so a duplicated key
holds its last value. -/
def dictGet (fields : List (Str × Json)) (key : Str) : Option Json :=
  ((fields.filter (fun kv => kv.1 == key)).getLast?).map (fun kv => kv.2)

/-- Whether Python `", ".join(x)` succeeds on a parsed JSON value `x`:
a list joins when every element is a string; a string joins (over its
characters); an object joins (iteration yields its keys, which are
strings); numbers, booleans and `None` are not iterable and raise
`TypeError`. -/
def Json.joinable : Json → Bool
  | .arr xs => xs.all fun j => match j with | Json.str _ => true | _ => false
  | .str _ => true
  | .obj _ => true
  | _ => false

/-- The course-serialization loop of `create_learning_roadmap`
(`for i, course in enumerate(courses_with_prereqs): prereqs = ", ".join(
course.get('prerequisites', [])) ...`): returns the first exception it
raises, if any.  A non-dict element raises `AttributeError` at
`course.get`; a dict whose `prerequisites` value is not joinable raises
`TypeError` at `", ".join`; the remaining `course.get(...)` accesses and
f-string interpolations cannot raise on a dict. -/
def serializeCourses : List Json → Option PyError
  | [] => none
  | c :: rest =>
    match c with
    | Json.obj fields =>
      if ((dictGet fields ("prerequisites".toList)).getD (Json.arr [])).joinable then
        serializeCourses rest
      else some PyError.typeError
    | _ => some PyError.attributeError

/-- Model of `CourseRecommendationSystem.create_learning_roadmap`, as a
function of the course selections and of the completion outcome.  `.ok`
carries the returned dictionary and the number of completion calls made;
`.error` models an exception raised to the caller: the serialization loop
at lines 267-272 runs before the `try` block and before the completion
call, so its `AttributeError`/`TypeError` on a malformed course element is
uncaught.  The optional `student_profile` argument only affects the prompt
text and is not modelled. -/
def create_learning_roadmap (courses_with_prereqs : List Json)
    (response : Option Str) : Except PyError (Json × Nat) :=
  match courses_with_prereqs with
  | [] => Except.ok (errNoCourses, 0)
  | _ :: _ =>
    match serializeCourses courses_with_prereqs with
    | some e => Except.error e
    | none =>
      match response with
      | none => Except.ok (errFailedCreate, 1)
      | some resp =>
        if resp = [] then Except.ok (errFailedCreate, 1)
        else
          match extractObj resp with
          | none => Except.ok (errFailedCreate, 1)
          | some txt =>
            match jsonLoads txt with
            | some roadmap => Except.ok (roadmap, 1)
            | none => Except.ok (errDecodeFail, 1)

/-! ### The system object (`CourseRecommendationSystem`) -/

/-- The state held by a `CourseRecommendationSystem` instance: the fields
assigned in `__init__` (the `anthropic.Anthropic` client itself is external
and represented by the key used to build it). -/
structure CourseRecommendationSystem where
  api_key : Str
  model : Str
  available_departments : List (Str × Nat)

/-- The catalog value again, under a name that is still visible inside the
`CourseRecommendationSystem` namespace (where the bare name resolves to the
field projection). -/
def initialCatalog : List (Str × Nat) := available_departments

/-- Model of `CourseRecommendationSystem.__init__`. -/
def CourseRecommendationSystem.init (api_key : Str) : CourseRecommendationSystem :=
  { api_key := api_key
    model := "claude-sonnet-4-20250514".toList
    available_departments := initialCatalog }

/-- Stage 1 as a method: the source method only reads `self`, so the state
is returned unchanged alongside the result. -/
def CourseRecommendationSystem.select_departments_method
    (self : CourseRecommendationSystem) (response : Option Str) :
    List Str × CourseRecommendationSystem :=
  (select_departments self.available_departments response, self)

/-- Stage 2 as a method: the source method only reads `self`. -/
def CourseRecommendationSystem.select_courses_method
    (self : CourseRecommendationSystem) (fs : Str → Option (List Json))
    (replyF : Str → Option Str) (selected_departments : List Str) :
    List Json × CourseRecommendationSystem :=
  (select_courses_with_prerequisites fs replyF selected_departments, self)

/-- Stage 3 as a method: the source method only reads `self`. -/
def CourseRecommendationSystem.create_learning_roadmap_method
    (self : CourseRecommendationSystem) (courses_with_prereqs : List Json)
    (response : Option Str) :
    Except PyError (Json × Nat) × CourseRecommendationSystem :=
  (create_learning_roadmap courses_with_prereqs response, self)

/-! ### The corpus partitioner (`Split_initial_Json.py`) -/

/-- The forbidden filename characters of `clean_filename`
(`invalid_chars = '<>:"/\\|?*'`). -/
def invalid_chars : Str := ['<', '>', ':', '"', '/', '\\', '|', '?', '*']

/-- Python `s.replace(old, new)` for one-character patterns. -/
def replaceAllChar (s : Str) (old new : Char) : Str :=
  s.map (fun c => if c = old then new else c)

/-- The whitespace characters stripped by Python `str.strip()` (the ASCII
ones; the sources only ever contain ASCII department names). -/
def isPyWs (c : Char) : Bool :=
  c = ' ' || c = '\t' || c = '\n' || c = '\r' || c = '\x0b' || c = '\x0c'

/-- Python `str.strip()`. -/
def stripWs (s : Str) : Str :=
  ((s.dropWhile isPyWs).reverse.dropWhile isPyWs).reverse

/-- One pass of underscore-run collapsing; the flag records whether the
previously emitted character was an underscore. -/
def collapseUndAux : Bool → Str → Str
  | _, [] => []
  | prevU, c :: rest =>
    if c = '_' then
      if prevU then collapseUndAux true rest
      else '_' :: collapseUndAux true rest
    else c :: collapseUndAux false rest

/-- Model of the loop `while '__' in filename: filename =
filename.replace('__', '_')`: its fixed point collapses every maximal run of
underscores to a single underscore. -/
def collapseUnderscores (s : Str) : Str := collapseUndAux false s

/-- Whether a string starts with an underscore. -/
def headUnd : Str → Bool
  | [] => false
  | c :: _ => c = '_'

/-- Whether a string contains two consecutive underscores (Python's
`'__' in filename`). -/
def hasDoubleUnd : Str → Bool
  | c :: d :: rest => (c = '_' && d = '_') || hasDoubleUnd (d :: rest)
  | _ => false

/-- Model of `clean_filename`: replace each forbidden character by `'_'`
(the `for char in invalid_chars` loop), then `strip()` and replace spaces by
underscores, then collapse repeated underscores. -/
def clean_filename (filename : Str) : Str :=
  let step1 := invalid_chars.foldl (fun s c => replaceAllChar s c '_') filename
  let step2 := replaceAllChar (stripWs step1) ' ' '_'
  collapseUnderscores step2

/-- A course record as read from `all_courses.json`: its
`department_name` list (a missing key is modelled as `[]`, matching
`course.get('department_name', [])`), and the rest of the record as an
opaque payload. -/
structure CourseRecord where
  department_name : List Str
  payload : Str
deriving DecidableEq

/-- The catch-all group name. -/
def othersGroup : Str := "Others".toList

/-- Append a course to one group of the `departments` mapping
(`departments[key].append(course)` on a `defaultdict(list)`). -/
def addToGroup (groups : Str → List CourseRecord) (key : Str) (c : CourseRecord) :
    Str → List CourseRecord :=
  fun g => if g = key then groups g ++ [c] else groups g

/-- Process one course record: an empty (or missing) department list sends
the record to `"Others"`; otherwise the record is appended to the group of
each of its department names, sanitized by `clean_filename`. -/
def addCourseRecord (groups : Str → List CourseRecord) (course : CourseRecord) :
    Str → List CourseRecord :=
  match course.department_name with
  | [] => addToGroup groups othersGroup course
  | _ :: _ =>
    course.department_name.foldl
      (fun acc dept_name => addToGroup acc (clean_filename dept_name) course)
      groups

/-- Model of the grouping phase of `split_courses_by_department`: the
`departments` mapping after processing every course (file writing is a
side effect outside the data transform). -/
def split_courses_by_department (courses_data : List CourseRecord) :
    Str → List CourseRecord :=
  courses_data.foldl addCourseRecord (fun _ => [])

/-! ### Concrete data used by witnesses and counterexamples -/

/-- A stage-1 style reply embedding the array `["Mathematics"]` in prose. -/
def demoReply1 : Str := "sure: [\"Mathematics\"] hope this helps".toList

/-- A stage-1 style reply embedding an array with a duplicated valid name. -/
def demoReply10 : Str :=
  "pick [\"Mathematics\", \"Mathematics\", \"Physics\", \"Chemistry\"] thanks".toList

/-- A well-formed JSON array whose text contains an inner `']'`. -/
def cexArrText : Str := "[[1],2]".toList

/-- The value denoted by `cexArrText`. -/
def cexArrVal : Json := Json.arr [Json.arr [Json.num 1], Json.num 2]

/-- `cexArrText` embedded in harmless prose. -/
def cexArrReply : Str := "ans: ".toList ++ cexArrText ++ " done".toList

/-- A well-formed JSON object text. -/
def cexObjText : Str := '{' :: "\"a\":1".toList ++ ['}']

/-- The value denoted by `cexObjText`. -/
def cexObjVal : Json := Json.obj [("a".toList, Json.num 1)]

/-- `cexObjText` embedded in prose whose suffix contains a stray `'}'`. -/
def cexObjReply : Str := "hi ".toList ++ cexObjText ++ (' ' :: 'x' :: ['}'])

/-- A completion stub failing on attempts 0 and 1 and succeeding after. -/
def stubFailTwice : Nat → Option Str := fun i => if i < 2 then none else some ("ok".toList)

/-- A completion stub that always fails. -/
def stubAlwaysFail : Nat → Option Str := fun _ => none

/-- A filesystem stub: department `"B"` has no file, every other department
has a one-record course group. -/
def fsDemo : Str → Option (List Json) :=
  fun d => if d = "B".toList then none else some [Json.obj []]

/-- A stage-2 completion stub returning the same embedded array for every
department. -/
def replyDemo : Str → Option Str := fun _ => some ("use [\"X\"] now".toList)

/-- A course record listing two departments. -/
def crAB : CourseRecord := ⟨["A".toList, "B".toList], "c1".toList⟩

/-- A course record with an empty department list. -/
def crEmpty : CourseRecord := ⟨[], "c2".toList⟩

/-- A two-record corpus. -/
def demoCourses : List CourseRecord := [crAB, crEmpty]

/-- A stage-2 completion stub whose reply embeds the valid JSON array
`[1]` — stage 2 passes its elements through unvalidated. -/
def replyNumOne : Str → Option Str := fun _ => some ("ans [1] done".toList)

/-! ## Lemmas about the extraction regex models -/

theorem takeThroughRB_append (mid suf : Str) (h : ']' ∉ mid) :
    takeThroughRB (mid ++ ']' :: suf) = some (mid ++ [']']) := by
  induction mid with
  | nil => simp [takeThroughRB]
  | cons c cs ih =>
    have hc : ¬ c = ']' := fun hx => h (by simp [hx])
    have hcs : ']' ∉ cs := fun hx => h (by simp [hx])
    simp [takeThroughRB, hc, ih hcs]

theorem extractArr_cons_ne (c : Char) (s : Str) (h : ¬ c = '[') :
    extractArr (c :: s) = extractArr s := by
  simp [extractArr, h]

theorem extractArr_prepend (pre s : Str) (h : '[' ∉ pre) :
    extractArr (pre ++ s) = extractArr s := by
  induction pre with
  | nil => simp
  | cons c cs ih =>
    have hc : ¬ c = '[' := fun hx => h (by simp [hx])
    have hcs : '[' ∉ cs := fun hx => h (by simp [hx])
    rw [List.cons_append, extractArr_cons_ne c _ hc, ih hcs]

theorem extractArr_found (mid suf : Str) (h : ']' ∉ mid) :
    extractArr ('[' :: mid ++ ']' :: suf) = some ('[' :: mid ++ [']']) := by
  simp [extractArr, takeThroughRB_append mid suf h]

theorem takeThroughLastRB_of_no_rb (s : Str) (h : '}' ∉ s) :
    takeThroughLastRB s = none := by
  induction s with
  | nil => rfl
  | cons c cs ih =>
    have hc : ¬ c = '}' := fun hx => h (by simp [hx])
    have hcs : '}' ∉ cs := fun hx => h (by simp [hx])
    simp [takeThroughLastRB, ih hcs, hc]

theorem takeThroughLastRB_append (mid suf : Str) (h : '}' ∉ suf) :
    takeThroughLastRB (mid ++ '}' :: suf) = some (mid ++ ['}']) := by
  induction mid with
  | nil => simp [takeThroughLastRB, takeThroughLastRB_of_no_rb suf h]
  | cons c cs ih => simp [takeThroughLastRB, ih]

theorem extractObj_cons_ne (c : Char) (s : Str) (h : ¬ c = '{') :
    extractObj (c :: s) = extractObj s := by
  simp [extractObj, h]

theorem extractObj_prepend (pre s : Str) (h : '{' ∉ pre) :
    extractObj (pre ++ s) = extractObj s := by
  induction pre with
  | nil => simp
  | cons c cs ih =>
    have hc : ¬ c = '{' := fun hx => h (by simp [hx])
    have hcs : '{' ∉ cs := fun hx => h (by simp [hx])
    rw [List.cons_append, extractObj_cons_ne c _ hc, ih hcs]

theorem extractObj_found (mid suf : Str) (h : '}' ∉ suf) :
    extractObj ('{' :: mid ++ '}' :: suf) = some ('{' :: mid ++ ['}']) := by
  simp [extractObj, takeThroughLastRB_append mid suf h]

/-! ## Claim C1 -/

/-- Claim C1, counterexample.  The claim asserts the extraction step recovers
every well-formed JSON value embedded in arbitrary prose.  It fails in both
stages: the lazy array regex truncates a nested array (`[[1],2]` inside prose
yields the match `[[1]`, which is not valid JSON), and the greedy object
regex swallows a stray closing brace from the suffix prose. -/
theorem extractor_roundtrip_counterexample :
    jsonLoads cexArrText = some cexArrVal ∧
    extractAndParseArr cexArrReply ≠ some cexArrVal ∧
    jsonLoads cexObjText = some cexObjVal ∧
    extractAndParseObj cexObjReply ≠ some cexObjVal := by
  refine ⟨rfl, ?_, rfl, ?_⟩
  · intro h
    have : (none : Option Json) = some cexArrVal := by
      rw [← h]; rfl
    simp at this
  · intro h
    have : (none : Option Json) = some cexObjVal := by
      rw [← h]; rfl
    simp at this

/-- Claim C1 (amended): the extraction step recovers exactly the embedded
JSON value, provided the embedding respects the two regex heuristics.  For
stages 1 and 2 (array): the prose before the array contains no `'['` and the
array text contains no `']'` before its final one (so, in particular, no
nested arrays).  For stage 3 (object): the prose before the object contains
no `'{'` and the prose after it contains no `'}'` (nested braces inside the
object are fine — the greedy match tolerates them). -/
theorem extractor_roundtrip_restricted (pre mid suf : Str) (v : Json) :
    ('[' ∉ pre → ']' ∉ mid → jsonLoads ('[' :: mid ++ [']']) = some v →
      extractAndParseArr (pre ++ ('[' :: mid ++ [']']) ++ suf) = some v) ∧
    ('{' ∉ pre → '}' ∉ suf → jsonLoads ('{' :: mid ++ ['}']) = some v →
      extractAndParseObj (pre ++ ('{' :: mid ++ ['}']) ++ suf) = some v) := by
  constructor
  · intro hpre hmid hparse
    have hshape : (pre ++ ('[' :: mid ++ [']']) ++ suf) = pre ++ ('[' :: mid ++ ']' :: suf) := by
      simp
    rw [extractAndParseArr, hshape, extractArr_prepend _ _ hpre,
      extractArr_found mid suf hmid]
    simpa using hparse
  · intro hpre hsuf hparse
    have hshape : (pre ++ ('{' :: mid ++ ['}']) ++ suf) = pre ++ ('{' :: mid ++ '}' :: suf) := by
      simp
    rw [extractAndParseObj, hshape, extractObj_prepend _ _ hpre,
      extractObj_found mid suf hsuf]
    simpa using hparse

/-- Claim C1 (amended), witness: both parts applied at concrete prose and
values. -/
theorem extractor_roundtrip_restricted_witness :
    extractAndParseArr ("ans: ".toList ++ ('[' :: "1, 2".toList ++ [']']) ++ " ok".toList) =
      some (Json.arr [Json.num 1, Json.num 2]) ∧
    extractAndParseObj ("re: ".toList ++ ('{' :: "\"a\": 2".toList ++ ['}']) ++ " end".toList) =
      some (Json.obj [("a".toList, Json.num 2)]) := by
  constructor
  · exact (extractor_roundtrip_restricted "ans: ".toList "1, 2".toList " ok".toList
      (Json.arr [Json.num 1, Json.num 2])).1 (by decide) (by decide) rfl
  · exact (extractor_roundtrip_restricted "re: ".toList "\"a\": 2".toList " end".toList
      (Json.obj [("a".toList, Json.num 2)])).2 (by decide) (by decide) rfl

/-! ## Claims C2 and C10 -/

/-- The validation list comprehension of stage 1, restricted to an array of
strings, is an ordinary filter by catalog membership. -/
theorem filterMap_deptOfJson_map_str (catalog : List (Str × Nat)) (ss : List Str) :
    (ss.map Json.str).filterMap (deptOfJson catalog) =
      ss.filter (fun s => isDeptKey catalog s) := by
  induction ss with
  | nil => rfl
  | cons s rest ih =>
    by_cases hk : isDeptKey catalog s = true
    · simp [List.filterMap_cons, deptOfJson, hk, List.filter_cons, ih]
    · simp [List.filterMap_cons, deptOfJson, hk, List.filter_cons, ih]

/-- An array of strings contains no unhashable element. -/
theorem any_unhashable_map_str (ss : List Str) :
    (ss.map Json.str).any Json.unhashable = false := by
  induction ss with
  | nil => rfl
  | cons s rest ih => simp [Json.unhashable, ih]

/-- Claim C2: for every completion outcome, every department name returned
by `select_departments` is a key of the catalog, and at most 3 names are
returned. -/
theorem select_departments_postcondition (catalog : List (Str × Nat)) (response : Option Str) :
    (∀ d ∈ select_departments catalog response, isDeptKey catalog d = true) ∧
    (select_departments catalog response).length ≤ 3 := by
  suffices key : ∀ l : List Str, select_departments catalog response = l →
      (∀ d ∈ l, isDeptKey catalog d = true) ∧ l.length ≤ 3 from key _ rfl
  intro l hl
  rw [select_departments.eq_def] at hl
  repeat' split at hl
  all_goals subst hl
  all_goals try exact ⟨by simp, by simp⟩
  refine ⟨?_, by simp [List.length_take]⟩
  intro d hd
  have hd' := List.mem_of_mem_take hd
  rw [List.mem_filterMap] at hd'
  obtain ⟨j, _, hjd⟩ := hd'
  cases j with
  | str s =>
    rw [deptOfJson] at hjd
    by_cases hk : isDeptKey catalog s = true
    · rw [if_pos hk] at hjd
      cases hjd
      exact hk
    · rw [if_neg hk] at hjd
      cases hjd
  | null => cases hjd
  | bool b => cases hjd
  | num n => cases hjd
  | arr elems => cases hjd
  | obj fields => cases hjd

/-- Claim C2, witness. -/
theorem select_departments_postcondition_witness :
    isDeptKey available_departments ("Mathematics".toList) = true :=
  (select_departments_postcondition available_departments (some demoReply1)).1
    ("Mathematics".toList) (by decide)

/-- Claim C10: `select_departments` performs no deduplication — when the
parsed reply is a JSON array of strings, the result is exactly the
catalog-key entries in reply order (multiplicity preserved), truncated to
the first 3. -/
theorem select_departments_no_dedup (catalog : List (Str × Nat)) (resp : Str) (ss : List Str)
    (h : extractAndParseArr resp = some (Json.arr (ss.map Json.str))) :
    select_departments catalog (some resp) =
      (ss.filter (fun s => isDeptKey catalog s)).take 3 := by
  rw [extractAndParseArr] at h
  cases hex : extractArr resp with
  | none => rw [hex] at h; cases h
  | some txt =>
    rw [hex] at h
    simp only [Option.some_bind] at h
    have hr : resp ≠ [] := by
      intro he
      subst he
      cases hex
    have hu := any_unhashable_map_str ss
    rw [select_departments.eq_def]
    simp only [hex, h, hu, if_neg hr, Bool.false_eq_true, if_false]
    rw [filterMap_deptOfJson_map_str]

/-- Claim C10, witness: a duplicated valid name is kept twice. -/
theorem select_departments_no_dedup_witness :
    select_departments available_departments (some demoReply10) =
      ["Mathematics".toList, "Mathematics".toList, "Physics".toList] := by
  rw [select_departments_no_dedup available_departments demoReply10
    ["Mathematics".toList, "Mathematics".toList, "Physics".toList, "Chemistry".toList] rfl]
  decide

/-! ## Claim C3 -/

/-- Rearranging a backoff sleep list: consing the current sleep onto the
sleeps of the remaining attempts. -/
theorem pow_sleeps_cons (attempt k : Nat) :
    2 ^ attempt :: (List.range k).map (fun i => 2 ^ (attempt + 1 + i)) =
      (List.range (k + 1)).map (fun i => 2 ^ (attempt + i)) := by
  rw [List.range_succ_eq_map, List.map_cons, List.map_map]
  have h2 : (List.range k).map (fun i => 2 ^ (attempt + 1 + i)) =
      (List.range k).map ((fun i => 2 ^ (attempt + i)) ∘ Nat.succ) := by
    apply List.map_congr_left
    intro a _
    simp only [Function.comp_apply]
    congr 1
    omega
  rw [h2]
  simp

/-- Retry loop, success case: `k` failures from attempt number `attempt`,
then a success, with `k` strictly below the remaining budget. -/
theorem callRetryAux_success (api : Nat → Option Str) (t : Str) :
    ∀ (k remaining attempt : Nat), k < remaining →
      (∀ i, attempt ≤ i → i < attempt + k → api i = none) →
      api (attempt + k) = some t →
      callRetryAux api attempt remaining =
        (some t, attempt + k + 1, (List.range k).map (fun i => 2 ^ (attempt + i))) := by
  intro k
  induction k with
  | zero =>
    intro remaining attempt hk _ hsucc
    rw [Nat.add_zero] at hsucc
    cases remaining with
    | zero => omega
    | succ r =>
      cases r with
      | zero => rw [callRetryAux]; simp [hsucc]
      | succ r' => rw [callRetryAux]; simp [hsucc]
  | succ k ih =>
    intro remaining attempt hk hfail hsucc
    have h0 : api attempt = none := hfail attempt (Nat.le_refl _) (by omega)
    cases remaining with
    | zero => omega
    | succ r =>
      cases r with
      | zero => omega
      | succ r' =>
        have ihr := ih (r' + 1) (attempt + 1) (by omega)
          (fun i h1 h2 => hfail i (by omega) (by omega))
          (by rw [show attempt + 1 + k = attempt + (k + 1) from by omega]; exact hsucc)
        rw [callRetryAux]
        simp only [h0, ihr, Prod.mk.injEq]
        refine ⟨trivial, by omega, pow_sleeps_cons attempt k⟩

/-- Retry loop, exhaustion case: every attempt in the budget fails. -/
theorem callRetryAux_fail (api : Nat → Option Str) :
    ∀ (remaining attempt : Nat),
      (∀ i, attempt ≤ i → i < attempt + remaining → api i = none) →
      callRetryAux api attempt remaining =
        (none, attempt + remaining,
          (List.range (remaining - 1)).map (fun i => 2 ^ (attempt + i))) := by
  intro remaining
  induction remaining with
  | zero =>
    intro attempt _
    simp [callRetryAux]
  | succ r ih =>
    intro attempt hfail
    have h0 : api attempt = none := hfail attempt (Nat.le_refl _) (by omega)
    cases r with
    | zero =>
      rw [callRetryAux]
      simp [h0]
    | succ r' =>
      have ihr := ih (attempt + 1) (fun i h1 h2 => hfail i (by omega) (by omega))
      rw [callRetryAux]
      simp only [h0, ihr, Prod.mk.injEq]
      refine ⟨trivial, by omega, ?_⟩
      rw [show r' + 1 + 1 - 1 = (r' + 1 - 1) + 1 from by omega, Nat.succ_sub_one]
      exact pow_sleeps_cons attempt r'

/-- Claim C3: if the completion service fails the first `k < max_retries`
attempts and then succeeds, `_call_claude_api` returns the success text
(after exactly `k + 1` attempts); if every attempt fails it returns the
`None` sentinel after exactly `max_retries` attempts rather than raising;
the sleeps between consecutive attempts are `2 ^ attempt` and hence strictly
increasing. -/
theorem call_claude_api_retry_contract (api : Nat → Option Str) (max_retries k : Nat) (t : Str) :
    (k < max_retries → (∀ i, i < k → api i = none) → api k = some t →
      _call_claude_api api max_retries =
        (some t, k + 1, (List.range k).map (fun i => 2 ^ i))) ∧
    ((∀ i, i < max_retries → api i = none) →
      _call_claude_api api max_retries =
        (none, max_retries, (List.range (max_retries - 1)).map (fun i => 2 ^ i))) ∧
    List.Pairwise (· < ·) ((List.range (max_retries - 1)).map (fun i => 2 ^ i)) := by
  refine ⟨?g1, ?g2, ?g3⟩
  · intro hk hfail hsucc
    have h := callRetryAux_success api t k max_retries 0 hk
      (fun i h1 h2 => hfail i (by omega)) (by simpa using hsucc)
    simpa [_call_claude_api] using h
  · intro hfail
    have h := callRetryAux_fail api max_retries 0 (fun i h1 h2 => hfail i (by omega))
    simpa [_call_claude_api] using h
  · rw [List.pairwise_map]
    exact (List.pairwise_lt_range _).imp (fun hab => Nat.pow_lt_pow_right (by omega) hab)

/-- Claim C3, witness: a stub failing twice then succeeding, and a stub that
always fails, both with `max_retries = 3`. -/
theorem call_claude_api_retry_contract_witness :
    _call_claude_api stubFailTwice 3 = (some ("ok".toList), 3, [1, 2]) ∧
    _call_claude_api stubAlwaysFail 3 = (none, 3, [1, 2]) := by
  constructor
  · rw [(call_claude_api_retry_contract stubFailTwice 3 2 ("ok".toList)).1 (by omega)
      (fun i hi => by simp [stubFailTwice, hi]) rfl]
    decide
  · rw [(call_claude_api_retry_contract stubAlwaysFail 3 0 ("ok".toList)).2.1
      (fun i _ => rfl)]
    decide

/-! ## Claim C4 -/

/-- Claim C4: `create_learning_roadmap` applied to an empty course-selection
sequence returns normally with the explicit error dictionary and makes zero
completion calls, whatever the completion boundary would have answered. -/
theorem create_learning_roadmap_empty_guard (response : Option Str) :
    create_learning_roadmap [] response = Except.ok (errNoCourses, 0) := rfl

/-! ## Claim C9 -/

/-- Claim C9: no pipeline operation mutates the department catalog — for
every call of the three stage methods, `available_departments` is identical
before and after. -/
theorem catalog_frame_condition (self : CourseRecommendationSystem)
    (response : Option Str) (fs : Str → Option (List Json))
    (replyF : Str → Option Str) (depts : List Str) (courses : List Json) :
    (self.select_departments_method response).2.available_departments =
      self.available_departments ∧
    (self.select_courses_method fs replyF depts).2.available_departments =
      self.available_departments ∧
    (self.create_learning_roadmap_method courses response).2.available_departments =
      self.available_departments :=
  ⟨rfl, rfl, rfl⟩

/-! ## Claim C8 -/

/-- The stage-2 loop body grows the accumulator by exactly the department's
contribution. -/
theorem stage2_foldl_flatMap (fs : Str → Option (List Json))
    (replyF : Str → Option Str) :
    ∀ (depts : List Str) (acc : List Json),
      depts.foldl
        (fun all_selected_courses department =>
          match _load_department_courses fs department with
          | [] => all_selected_courses
          | _ :: _ =>
            match replyF department with
            | none => all_selected_courses
            | some resp =>
              if resp = [] then all_selected_courses
              else
                match extractArr resp with
                | none => all_selected_courses
                | some txt =>
                  match jsonLoads txt with
                  | some (Json.arr courses) => all_selected_courses ++ courses
                  | _ => all_selected_courses)
        acc =
      acc ++ depts.flatMap (stage2_department_contribution fs replyF) := by
  intro depts
  induction depts with
  | nil => intro acc; simp
  | cons d rest ih =>
    intro acc
    rw [List.foldl_cons, List.flatMap_cons, ih]
    have hbody : (match _load_department_courses fs d with
        | [] => acc
        | _ :: _ =>
          match replyF d with
          | none => acc
          | some resp =>
            if resp = [] then acc
            else
              match extractArr resp with
              | none => acc
              | some txt =>
                match jsonLoads txt with
                | some (Json.arr courses) => acc ++ courses
                | _ => acc) =
        acc ++ stage2_department_contribution fs replyF d := by
      rw [stage2_department_contribution.eq_def]
      cases _load_department_courses fs d with
      | nil => simp
      | cons c cs =>
        cases replyF d with
        | none => simp
        | some resp =>
          by_cases hr : resp = []
          · simp [hr]
          · simp only [hr, if_neg, if_false]
            cases extractArr resp with
            | none => simp
            | some txt =>
              cases hj : jsonLoads txt with
              | none => simp [hj]
              | some v =>
                cases v with
                | arr courses => simp [hj]
                | null => simp [hj]
                | bool b => simp [hj]
                | num n => simp [hj]
                | str s => simp [hj]
                | obj fields => simp [hj]
    rw [hbody, List.append_assoc]

/-- Claim C8: `select_courses_with_prerequisites` skips every selected
department whose course group cannot be loaded and still processes the
rest; its result is the concatenation, in input order, of the
per-department parsed course selections. -/
theorem select_courses_skips_unloadable (fs : Str → Option (List Json))
    (replyF : Str → Option Str) (depts : List Str) :
    select_courses_with_prerequisites fs replyF depts =
      depts.flatMap (stage2_department_contribution fs replyF) ∧
    (∀ d, _load_department_courses fs d = [] →
      stage2_department_contribution fs replyF d = []) := by
  constructor
  · rw [select_courses_with_prerequisites]
    rw [stage2_foldl_flatMap fs replyF depts []]
    simp
  · intro d hd
    rw [stage2_department_contribution.eq_def, hd]

/-- Claim C8, witness: with department `"B"` unloadable, its contribution
is empty while the pipeline still flattens the other departments in
order. -/
theorem select_courses_skips_unloadable_witness :
    select_courses_with_prerequisites fsDemo replyDemo
        ["A".toList, "B".toList, "C".toList] =
      [Json.str ("X".toList), Json.str ("X".toList)] ∧
    stage2_department_contribution fsDemo replyDemo ("B".toList) = [] := by
  constructor
  · rw [(select_courses_skips_unloadable fsDemo replyDemo
      ["A".toList, "B".toList, "C".toList]).1]
    rfl
  · exact (select_courses_skips_unloadable fsDemo replyDemo []).2 ("B".toList) rfl

/-! ## Claim C5 -/

/-- A substring matched by the object regex starts with `'{'`. -/
theorem extractObj_head (s t : Str) (h : extractObj s = some t) :
    ∃ b, t = '{' :: b := by
  induction s with
  | nil => cases h
  | cons c cs ih =>
    by_cases hc : c = '{'
    · subst hc
      rw [extractObj, if_pos rfl] at h
      cases htk : takeThroughLastRB cs with
      | some body =>
        rw [htk] at h
        exact ⟨body, (Option.some.inj h).symm⟩
      | none =>
        rw [htk] at h
        exact ih h
    · rw [extractObj, if_neg hc] at h
      exact ih h

/-- The parser, on input whose first character is `'{'`, only ever produces
an object. -/
theorem parseVal_lbrace_isObj (fuel : Nat) (b rest : Str) (v : Json)
    (h : parseVal fuel ('{' :: b) = some (v, rest)) : v.isObj = true := by
  cases fuel with
  | zero => rw [parseVal] at h; cases h
  | succ n =>
    rw [parseVal] at h
    have hws : skipWs ('{' :: b) = '{' :: b := by
      rw [skipWs]
      simp [isJsonWs]
    rw [hws] at h
    simp only [] at h
    simp at h
    split at h
    · simp only [Option.some.injEq, Prod.mk.injEq] at h
      obtain ⟨hv, -⟩ := h
      subst hv
      rfl
    · cases hp : parseObjLoop n b with
      | none => rw [hp] at h; simp at h
      | some p =>
        rw [hp] at h
        simp only [Option.map_some', Option.some.injEq, Prod.mk.injEq] at h
        obtain ⟨hv, -⟩ := h
        subst hv
        rfl

/-- `json.loads` on a `'{'`-headed text only ever produces an object. -/
theorem jsonLoads_lbrace_isObj (b : Str) (v : Json)
    (h : jsonLoads ('{' :: b) = some v) : v.isObj = true := by
  rw [jsonLoads] at h
  cases hp : parseVal (2 * (('{' :: b) : Str).length + 4) ('{' :: b) with
  | none => rw [hp] at h; cases h
  | some p =>
    obtain ⟨v', rest⟩ := p
    rw [hp] at h
    simp only [] at h
    by_cases hr : skipWs rest = []
    · rw [if_pos hr] at h
      have hv : v' = v := Option.some.inj h
      subst hv
      exact parseVal_lbrace_isObj _ b rest v' hp
    · rw [if_neg hr] at h
      cases h

/-- Claim C5, counterexample.  The claim asserts no stage ever raises, but
stage 3's course-serialization loop runs outside the `try` block: on the
course list `[1]` — which stage 2 itself produces for the valid-JSON reply
`"ans [1] done"` — `course.get` raises `AttributeError`, and on a record
whose `prerequisites` value is the number `7` the `", ".join` raises
`TypeError`; both escape to the caller instead of an error dictionary being
returned. -/
theorem pipeline_uncaught_fault_counterexample :
    stage2_department_contribution fsDemo replyNumOne ("A".toList) = [Json.num 1] ∧
    create_learning_roadmap [Json.num 1] (some demoReply1) =
      Except.error PyError.attributeError ∧
    create_learning_roadmap [Json.obj [("prerequisites".toList, Json.num 7)]]
        (some demoReply1) =
      Except.error PyError.typeError :=
  ⟨rfl, rfl, rfl⟩

/-- Claim C5 (amended): for every completion outcome (including a reply with
no bracket-delimited region and a bracketed region that is not valid JSON),
stages 1 and 2 return either the expected structure or the empty-list
sentinel and never raise; every value stage 3 returns is a dictionary —
the parsed object or an explicit error dictionary — and stage 3 returns
(rather than raising) whenever each course element is a JSON object whose
`prerequisites` value, when present, is joinable; a non-object element or a
non-joinable `prerequisites` value makes the serialization loop raise to
the caller before the completion call is made. -/
theorem pipeline_no_uncaught_fault (catalog : List (Str × Nat))
    (response : Option Str) (courses : List Json)
    (fs : Str → Option (List Json)) (replyF : Str → Option Str)
    (depts : List Str) :
    (response = none → select_departments catalog response = []) ∧
    (∀ r, response = some r → extractArr r = none →
      select_departments catalog response = []) ∧
    (∀ r t, response = some r → extractArr r = some t → jsonLoads t = none →
      select_departments catalog response = []) ∧
    (∀ j n, create_learning_roadmap courses response = Except.ok (j, n) →
      j.isObj = true) ∧
    (serializeCourses courses = none →
      ∃ p, create_learning_roadmap courses response = Except.ok p) ∧
    (∀ c cs, courses = c :: cs → serializeCourses courses = none → response = none →
      create_learning_roadmap courses response = Except.ok (errFailedCreate, 1)) ∧
    (∀ c cs r, courses = c :: cs → serializeCourses courses = none →
      response = some r → extractObj r = none →
      create_learning_roadmap courses response = Except.ok (errFailedCreate, 1)) ∧
    (∀ c cs r t, courses = c :: cs → serializeCourses courses = none →
      response = some r → extractObj r = some t → jsonLoads t = none →
      create_learning_roadmap courses response = Except.ok (errDecodeFail, 1)) ∧
    ((∀ d, replyF d = none) → select_courses_with_prerequisites fs replyF depts = []) := by
  refine ⟨?g1, ?g2, ?g3, ?g4, ?g5, ?g6, ?g7, ?g8, ?g9⟩
  · intro hr
    subst hr
    rfl
  · intro r hrsp hex
    subst hrsp
    rw [select_departments.eq_def]
    by_cases hr : r = []
    · simp [hr]
    · simp [hex, hr]
  · intro r t hrsp hex hj
    subst hrsp
    rw [select_departments.eq_def]
    by_cases hr : r = []
    · simp [hr]
    · simp [hex, hj, hr]
  · intro j n hp
    cases courses with
    | nil =>
      rw [create_learning_roadmap.eq_def] at hp
      simp only [Except.ok.injEq, Prod.mk.injEq] at hp
      obtain ⟨hj, -⟩ := hp
      rw [← hj]
      rfl
    | cons c cs =>
      rw [create_learning_roadmap.eq_def] at hp
      simp only [] at hp
      cases hs : serializeCourses (c :: cs) with
      | some e =>
        rw [hs] at hp
        cases hp
      | none =>
        rw [hs] at hp
        simp only [] at hp
        cases response with
        | none =>
          simp only [Except.ok.injEq, Prod.mk.injEq] at hp
          obtain ⟨hj, -⟩ := hp
          rw [← hj]
          rfl
        | some r =>
          simp only [] at hp
          by_cases hr : r = []
          · simp only [hr, if_pos, Except.ok.injEq, Prod.mk.injEq] at hp
            obtain ⟨hj, -⟩ := hp
            rw [← hj]
            rfl
          · rw [if_neg hr] at hp
            cases hex : extractObj r with
            | none =>
              rw [hex] at hp
              simp only [Except.ok.injEq, Prod.mk.injEq] at hp
              obtain ⟨hj, -⟩ := hp
              rw [← hj]
              rfl
            | some txt =>
              rw [hex] at hp
              simp only [] at hp
              cases hjl : jsonLoads txt with
              | none =>
                rw [hjl] at hp
                simp only [Except.ok.injEq, Prod.mk.injEq] at hp
                obtain ⟨hj, -⟩ := hp
                rw [← hj]
                rfl
              | some v =>
                rw [hjl] at hp
                simp only [Except.ok.injEq, Prod.mk.injEq] at hp
                obtain ⟨hj, -⟩ := hp
                obtain ⟨b, hb⟩ := extractObj_head r txt hex
                subst hb
                rw [← hj]
                exact jsonLoads_lbrace_isObj b v hjl
  · intro hs
    cases courses with
    | nil => exact ⟨(errNoCourses, 0), rfl⟩
    | cons c cs =>
      rw [create_learning_roadmap.eq_def]
      simp only [hs]
      cases response with
      | none => exact ⟨(errFailedCreate, 1), rfl⟩
      | some r =>
        by_cases hr : r = []
        · exact ⟨(errFailedCreate, 1), by simp [hr]⟩
        · cases hex : extractObj r with
          | none => exact ⟨(errFailedCreate, 1), by simp [hr, hex]⟩
          | some txt =>
            cases hjl : jsonLoads txt with
            | none => exact ⟨(errDecodeFail, 1), by simp [hr, hex, hjl]⟩
            | some v => exact ⟨(v, 1), by simp [hr, hex, hjl]⟩
  · intro c cs hc hs hr
    subst hc
    subst hr
    rw [create_learning_roadmap.eq_def]
    simp [hs]
  · intro c cs r hc hs hrsp hex
    subst hc
    subst hrsp
    rw [create_learning_roadmap.eq_def]
    simp only [hs]
    by_cases hr : r = []
    · simp [hr]
    · simp [hex, hr]
  · intro c cs r t hc hs hrsp hex hjl
    subst hc
    subst hrsp
    rw [create_learning_roadmap.eq_def]
    simp only [hs]
    by_cases hr : r = []
    · subst hr
      rw [show extractObj ([] : Str) = none from rfl] at hex
      cases hex
    · simp [hex, hjl, hr]
  · intro hnone
    have hc : ∀ d, stage2_department_contribution fs replyF d = [] := by
      intro d
      cases hload : _load_department_courses fs d with
      | nil => rw [stage2_department_contribution.eq_def, hload]
      | cons c cs => rw [stage2_department_contribution.eq_def, hload, hnone d]
    rw [select_courses_with_prerequisites, stage2_foldl_flatMap fs replyF depts [],
      List.nil_append]
    induction depts with
    | nil => rfl
    | cons d rest ih =>
      rw [List.flatMap_cons, hc d, List.nil_append]
      exact ih

/-- Claim C5 (amended), witness: a reply with no bracket region makes
stage 1 return the empty-list sentinel. -/
theorem pipeline_no_uncaught_fault_witness :
    select_departments available_departments (some ("no json here".toList)) = [] :=
  (pipeline_no_uncaught_fault available_departments (some ("no json here".toList))
      [] (fun _ => none) (fun _ => none) []).2.1 ("no json here".toList) rfl (by decide)

/-! ## Claim C6 -/

/-- Membership in one group after appending a course to a (possibly other)
group. -/
theorem mem_addToGroup (groups : Str → List CourseRecord) (key : Str)
    (c c' : CourseRecord) (g : Str) :
    c' ∈ addToGroup groups key c g ↔ c' ∈ groups g ∨ (g = key ∧ c' = c) := by
  by_cases hg : g = key
  · simp [addToGroup, hg]
  · simp [addToGroup, hg]

/-- Membership after appending a course to the groups of all its (sanitized)
department names. -/
theorem mem_foldl_addToGroup (c : CourseRecord) :
    ∀ (names : List Str) (groups : Str → List CourseRecord) (c' : CourseRecord) (g : Str),
      (c' ∈ (names.foldl (fun acc dept_name => addToGroup acc (clean_filename dept_name) c) groups) g ↔
        c' ∈ groups g ∨ (c' = c ∧ ∃ d ∈ names, clean_filename d = g)) := by
  intro names
  induction names with
  | nil =>
    intro groups c' g
    simp
  | cons d rest ih =>
    intro groups c' g
    rw [List.foldl_cons, ih, mem_addToGroup]
    constructor
    · rintro ((h | ⟨hg, hc⟩) | ⟨hc, d', hd', hg⟩)
      · exact Or.inl h
      · exact Or.inr ⟨hc, d, List.mem_cons_self .., hg.symm⟩
      · exact Or.inr ⟨hc, d', List.mem_cons_of_mem _ hd', hg⟩
    · rintro (h | ⟨hc, d', hd', hg⟩)
      · exact Or.inl (Or.inl h)
      · rcases List.mem_cons.mp hd' with h1 | h2
        · exact Or.inl (Or.inr ⟨(h1 ▸ hg).symm, hc⟩)
        · exact Or.inr ⟨hc, d', h2, hg⟩

/-- Membership after processing a single course record. -/
theorem mem_addCourseRecord (groups : Str → List CourseRecord)
    (course c' : CourseRecord) (g : Str) :
    c' ∈ addCourseRecord groups course g ↔
      c' ∈ groups g ∨ (c' = course ∧
        ((g = othersGroup ∧ course.department_name = []) ∨
          ∃ d ∈ course.department_name, clean_filename d = g)) := by
  rw [addCourseRecord.eq_def]
  cases hd : course.department_name with
  | nil =>
    simp only []
    rw [mem_addToGroup]
    constructor
    · rintro (h | ⟨hg, hc⟩)
      · exact Or.inl h
      · exact Or.inr ⟨hc, Or.inl ⟨hg, trivial⟩⟩
    · rintro (h | ⟨hc, ⟨hg, -⟩ | ⟨d, hd', -⟩⟩)
      · exact Or.inl h
      · exact Or.inr ⟨hg, hc⟩
      · cases hd'
  | cons d0 rest =>
    simp only []
    rw [mem_foldl_addToGroup]
    constructor
    · rintro (h | ⟨hc, hex⟩)
      · exact Or.inl h
      · exact Or.inr ⟨hc, Or.inr hex⟩
    · rintro (h | ⟨hc, ⟨-, habs⟩ | hex⟩)
      · exact Or.inl h
      · cases habs
      · exact Or.inr ⟨hc, hex⟩

/-- Membership in the groups produced by the whole grouping loop. -/
theorem mem_split_courses_aux (c : CourseRecord) (g : Str) :
    ∀ (courses : List CourseRecord) (groups : Str → List CourseRecord),
      (c ∈ (courses.foldl addCourseRecord groups) g ↔
        c ∈ groups g ∨ (c ∈ courses ∧
          ((g = othersGroup ∧ c.department_name = []) ∨
            ∃ d ∈ c.department_name, clean_filename d = g))) := by
  intro courses
  induction courses with
  | nil =>
    intro groups
    simp
  | cons course rest ih =>
    intro groups
    rw [List.foldl_cons, ih, mem_addCourseRecord]
    constructor
    · rintro ((h | ⟨hc, hjust⟩) | ⟨hmem, hjust⟩)
      · exact Or.inl h
      · subst hc
        exact Or.inr ⟨List.mem_cons_self .., hjust⟩
      · exact Or.inr ⟨List.mem_cons_of_mem _ hmem, hjust⟩
    · rintro (h | ⟨hmem, hjust⟩)
      · exact Or.inl (Or.inl h)
      · rcases List.mem_cons.mp hmem with h1 | h2
        · subst h1
          exact Or.inl (Or.inr ⟨rfl, hjust⟩)
        · exact Or.inr ⟨h2, hjust⟩

/-- Claim C6: `split_courses_by_department` places a record into the
sanitized group of each department name it lists; a record with an empty (or
missing) department list goes into the `"Others"` group; and, conversely, a
record is in a group only when one of those two rules put it there — so a
record whose every occurrence has an empty department list is in `"Others"`
and in no other group. -/
theorem split_courses_grouping (courses : List CourseRecord) (c : CourseRecord) (g : Str) :
    (c ∈ courses → ∀ d ∈ c.department_name,
      c ∈ split_courses_by_department courses (clean_filename d)) ∧
    (c ∈ courses → c.department_name = [] →
      c ∈ split_courses_by_department courses othersGroup) ∧
    (c ∈ split_courses_by_department courses g →
      c ∈ courses ∧ ((g = othersGroup ∧ c.department_name = []) ∨
        ∃ d ∈ c.department_name, clean_filename d = g)) := by
  refine ⟨?g1, ?g2, ?g3⟩
  · intro hmem d hd
    rw [split_courses_by_department, mem_split_courses_aux]
    exact Or.inr ⟨hmem, Or.inr ⟨d, hd, rfl⟩⟩
  · intro hmem hempty
    rw [split_courses_by_department, mem_split_courses_aux]
    exact Or.inr ⟨hmem, Or.inl ⟨rfl, hempty⟩⟩
  · intro hmem
    rw [split_courses_by_department, mem_split_courses_aux] at hmem
    rcases hmem with h | h
    · simp at h
    · exact h

/-- Claim C6, witness: the two-department record lands in both of its
groups, and the empty-department record lands in `"Others"`. -/
theorem split_courses_grouping_witness :
    crAB ∈ split_courses_by_department demoCourses (clean_filename ("A".toList)) ∧
    crAB ∈ split_courses_by_department demoCourses (clean_filename ("B".toList)) ∧
    crEmpty ∈ split_courses_by_department demoCourses othersGroup := by
  refine ⟨?g1, ?g2, ?g3⟩
  · exact (split_courses_grouping demoCourses crAB (clean_filename ("A".toList))).1
      (by decide) ("A".toList) (by decide)
  · exact (split_courses_grouping demoCourses crAB (clean_filename ("B".toList))).1
      (by decide) ("B".toList) (by decide)
  · exact (split_courses_grouping demoCourses crEmpty othersGroup).2.1 (by decide) rfl

/-! ## Claim C7 -/

/-- Underscore-collapsing emits only characters of its input. -/
theorem mem_collapseUndAux (c : Char) :
    ∀ (s : Str) (b : Bool), c ∈ collapseUndAux b s → c ∈ s := by
  intro s
  induction s with
  | nil =>
    intro b h
    simp [collapseUndAux] at h
  | cons x rest ih =>
    intro b h
    rw [collapseUndAux] at h
    by_cases hx : x = '_'
    · rw [if_pos hx] at h
      by_cases hb : b = true
      · rw [if_pos hb] at h
        exact List.mem_cons_of_mem _ (ih true h)
      · rw [if_neg hb] at h
        rcases List.mem_cons.mp h with h1 | h1
        · rw [h1, ← hx]
          exact List.mem_cons_self ..
        · exact List.mem_cons_of_mem _ (ih true h1)
    · rw [if_neg hx] at h
      rcases List.mem_cons.mp h with h1 | h1
      · rw [h1]
        exact List.mem_cons_self ..
      · exact List.mem_cons_of_mem _ (ih false h1)

/-- Unfolding `hasDoubleUnd` one character at a time. -/
theorem hasDoubleUnd_cons (x : Char) (t : Str) :
    hasDoubleUnd (x :: t) = ((decide (x = '_') && headUnd t) || hasDoubleUnd t) := by
  cases t with
  | nil => simp [hasDoubleUnd, headUnd]
  | cons d rest => rfl

/-- The collapsing loop reaches a fixed point: its output never has two
consecutive underscores, and in the `prevU = true` state it never starts
with an underscore. -/
theorem collapse_no_double :
    ∀ (s : Str),
      headUnd (collapseUndAux true s) = false ∧
      ∀ b, hasDoubleUnd (collapseUndAux b s) = false := by
  intro s
  induction s with
  | nil => exact ⟨rfl, fun b => rfl⟩
  | cons x rest ih =>
    obtain ⟨ih1, ih2⟩ := ih
    constructor
    · rw [collapseUndAux]
      by_cases hx : x = '_'
      · rw [if_pos hx, if_pos rfl]
        exact ih1
      · rw [if_neg hx]
        simp [headUnd, hx]
    · intro b
      rw [collapseUndAux]
      by_cases hx : x = '_'
      · rw [if_pos hx]
        cases b with
        | true =>
          rw [if_pos rfl]
          exact ih2 true
        | false =>
          rw [if_neg (by simp)]
          rw [hasDoubleUnd_cons, ih1, ih2 true]
          simp
      · rw [if_neg hx]
        rw [hasDoubleUnd_cons, ih2 false]
        simp [hx]

/-- Replacement can only produce the replacement character or keep a
character different from the replaced one. -/
theorem mem_replaceAllChar (s : Str) (old new c : Char)
    (h : c ∈ replaceAllChar s old new) : c = new ∨ (c ∈ s ∧ ¬ c = old) := by
  rw [replaceAllChar] at h
  obtain ⟨a, ha, hc⟩ := List.mem_map.mp h
  by_cases hao : a = old
  · rw [if_pos hao] at hc
    exact Or.inl hc.symm
  · rw [if_neg hao] at hc
    exact Or.inr ⟨hc ▸ ha, hc ▸ hao⟩

/-- Stripping emits only characters of its input. -/
theorem mem_stripWs (s : Str) (c : Char) (h : c ∈ stripWs s) : c ∈ s := by
  rw [stripWs] at h
  rw [List.mem_reverse] at h
  have h2 : c ∈ (s.dropWhile isPyWs).reverse := (List.dropWhile_sublist _).subset h
  rw [List.mem_reverse] at h2
  exact (List.dropWhile_sublist _).subset h2

/-- The replacement loop `for char in invalid_chars: ... replace(char, '_')`
leaves only original or underscore characters and removes every character of
the replaced list (provided the list does not contain the underscore
itself). -/
theorem foldl_replace_removes :
    ∀ (L : List Char) (s0 : Str) (c : Char),
      '_' ∉ L →
      c ∈ L.foldl (fun s ch => replaceAllChar s ch '_') s0 →
      (c ∈ s0 ∨ c = '_') ∧ c ∉ L := by
  intro L
  induction L with
  | nil =>
    intro s0 c _ h
    exact ⟨Or.inl h, by simp⟩
  | cons ch L' ih =>
    intro s0 c hund h
    rw [List.foldl_cons] at h
    have hund' : '_' ∉ L' := fun hx => hund (List.mem_cons_of_mem _ hx)
    obtain ⟨h1, h2⟩ := ih (replaceAllChar s0 ch '_') c hund' h
    rcases h1 with h1 | h1
    · rcases mem_replaceAllChar _ _ _ _ h1 with hc | ⟨hs, hne⟩
      · exact ⟨Or.inr hc, fun hmem => hund (hc ▸ hmem)⟩
      · refine ⟨Or.inl hs, ?_⟩
        intro hmem
        rcases List.mem_cons.mp hmem with he | he
        · exact hne he
        · exact h2 he
    · exact ⟨Or.inr h1, fun hmem => hund (h1 ▸ hmem)⟩

/-- Claim C7: `clean_filename` output contains no forbidden character and no
two consecutive underscores; in particular `clean_filename("C/D:E")` is
`"C_D_E"`. -/
theorem clean_filename_sanitizes (s : Str) :
    (∀ c ∈ clean_filename s, c ∉ invalid_chars) ∧
    hasDoubleUnd (clean_filename s) = false ∧
    clean_filename ("C/D:E".toList) = "C_D_E".toList := by
  refine ⟨?_, ?_, by decide⟩
  · intro c hc
    simp only [clean_filename] at hc
    rw [collapseUnderscores] at hc
    have h2 := mem_collapseUndAux c _ false hc
    rcases mem_replaceAllChar _ _ _ _ h2 with h3 | ⟨h3, -⟩
    · subst h3
      decide
    · have h4 := mem_stripWs _ _ h3
      exact (foldl_replace_removes invalid_chars s c (by decide) h4).2
  · simp only [clean_filename]
    exact (collapse_no_double _).2 false

/-- Claim C7, witness: the underscore produced from a forbidden character is
itself not forbidden. -/
theorem clean_filename_sanitizes_witness : ('_' : Char) ∉ invalid_chars :=
  (clean_filename_sanitizes ("a<b".toList)).1 '_' (by decide)
